import Mathlib

/-!
Verification of the finance-bro signal/backtest core.

The embedding models:
* `calculateRMIProfit` from `src/frontend/src/components/charts/RMIChart.tsx`
  (the RSI/RMI crossing signal detector plus compounded-profit simulator);
* the fetch-caching decision and cycle structure of `checkForSignals` from
  the notification-board component;
* the per-(symbol, indicator) notification construction of that component.

Indicator values are modelled as `Option ℚ` (`none` is the JavaScript `null`
that fills an indicator's warm-up window); JavaScript's numeric coercion of
`null` to `0` in `<`/`>` comparisons is made explicit by `jnum`.  Prices are
`ℚ`.  Array indexing `a[i]` inside the loop (where it is always in bounds)
is modelled with `List.getD`.
-/

namespace FinanceBro

/-- JavaScript `ToNumber` as applied to an indicator entry: `null` coerces
to `0`, a number is itself.  (`rmiData[i] < 30` in JS compares `0 < 30`
when the entry is `null`.) -/
def jnum (v : Option ℚ) : ℚ := v.getD 0

/-- A point pushed onto `buyPoints` / `sellPoints`:
`{ x: i, y: rmiData[i], price: prices[i] }`. -/
structure ChartPoint where
  x : ℕ
  y : Option ℚ
  price : ℚ
deriving DecidableEq

/-- The mutable state of the `calculateRMIProfit` loop: `capital`,
`latestBuyPrice`, `latestSellPrice`, and the two emitted point arrays. -/
structure RMIState where
  capital : ℚ
  latestBuy : Option ℚ
  latestSell : Option ℚ
  buyPoints : List ChartPoint
  sellPoints : List ChartPoint
deriving DecidableEq

/-- The buy condition of iteration `i`:
`rmiData[i-1] < 30 && rmiData[i] > 30 && rmiData[i-1] != null`. -/
def buyCond (rmi : List (Option ℚ)) (i : ℕ) : Prop :=
  jnum (rmi.getD (i - 1) none) < 30 ∧ 30 < jnum (rmi.getD i none) ∧
    rmi.getD (i - 1) none ≠ none

/-- The threshold part of the sell condition of iteration `i`:
`rmiData[i-1] > 70 && rmiData[i] < 70` (the JS also requires
`latestBuyPrice !== null`, which is part of the step function). -/
def sellCond (rmi : List (Option ℚ)) (i : ℕ) : Prop :=
  70 < jnum (rmi.getD (i - 1) none) ∧ jnum (rmi.getD i none) < 70

instance (rmi : List (Option ℚ)) (i : ℕ) : Decidable (buyCond rmi i) := by
  unfold buyCond; infer_instance

instance (rmi : List (Option ℚ)) (i : ℕ) : Decidable (sellCond rmi i) := by
  unfold sellCond; infer_instance

/-- One iteration of the `for` loop body of `calculateRMIProfit`. -/
def rmiStep (prices : List ℚ) (rmi : List (Option ℚ)) (s : RMIState) (i : ℕ) :
    RMIState :=
  if buyCond rmi i then
    { s with latestBuy := some (prices.getD i 0),
             buyPoints := s.buyPoints ++ [⟨i, rmi.getD i none, prices.getD i 0⟩] }
  else if sellCond rmi i ∧ s.latestBuy ≠ none then
    let b := s.latestBuy.getD 0
    { s with capital := s.capital * (1 + (prices.getD i 0 - b) / b),
             sellPoints := s.sellPoints ++ [⟨i, rmi.getD i none, prices.getD i 0⟩],
             latestBuy := none,
             latestSell := some (prices.getD i 0) }
  else s

/-- The `for (let i = 1; i < rmiData.length; i++)` loop, folded over an
explicit list of indices. -/
def rmiLoop (prices : List ℚ) (rmi : List (Option ℚ)) :
    RMIState → List ℕ → RMIState
  | s, [] => s
  | s, i :: rest => rmiLoop prices rmi (rmiStep prices rmi s i) rest

/-- Initial loop state: `capital = 100`, no open position, no points. -/
def initRMIState : RMIState := ⟨100, none, none, [], []⟩

/-- The record returned by `calculateRMIProfit`. -/
structure RMIResult where
  profit : ℚ
  buyPoints : List ChartPoint
  sellPoints : List ChartPoint
  latestBuyPrice : Option ℚ
  latestSellPrice : Option ℚ
deriving DecidableEq

/-- The loop state after running the whole pass over indices
`1 .. rmiData.length - 1`. -/
def rmiFinalState (prices : List ℚ) (rmi : List (Option ℚ)) : RMIState :=
  rmiLoop prices rmi initRMIState (List.range' 1 (rmi.length - 1))

/-- The function `calculateRMIProfit` of `RMIChart.tsx`: run the crossing loop, then, if a
position is still open, apply the synthetic close at the last price, and
return `capital - 100` with the emitted points and latest prices. -/
def calculateRMIProfit (prices : List ℚ) (rmi : List (Option ℚ)) : RMIResult :=
  let s := rmiFinalState prices rmi
  let capital :=
    match s.latestBuy with
    | some b => s.capital * (1 + (prices.getD (prices.length - 1) 0 - b) / b)
    | none => s.capital
  ⟨capital - 100, s.buyPoints, s.sellPoints, s.latestBuy, s.latestSell⟩

/-- The capital update applied to one completed `(buy at p.1, sell at p.2)`
round trip: `capital *= 1 + (p1 - p0) / p0` (spec §4.3). -/
def tradeFactor (c : ℚ) (p : ℚ × ℚ) : ℚ := c * (1 + (p.2 - p.1) / p.1)

/-- Specification-side pairing pass: walking the same indices with the same
crossing conditions, collect the completed `(buy price, sell price)` pairs in
chronological order, threading the open entry price. -/
def pairsLoop (prices : List ℚ) (rmi : List (Option ℚ)) :
    Option ℚ → List ℕ → List (ℚ × ℚ)
  | _, [] => []
  | o, i :: rest =>
    if buyCond rmi i then pairsLoop prices rmi (some (prices.getD i 0)) rest
    else if sellCond rmi i ∧ o ≠ none then
      (o.getD 0, prices.getD i 0) :: pairsLoop prices rmi none rest
    else pairsLoop prices rmi o rest

/-- The open entry price threaded by the pairing pass. -/
def openLoop (prices : List ℚ) (rmi : List (Option ℚ)) :
    Option ℚ → List ℕ → Option ℚ
  | o, [] => o
  | o, i :: rest =>
    if buyCond rmi i then openLoop prices rmi (some (prices.getD i 0)) rest
    else if sellCond rmi i ∧ o ≠ none then openLoop prices rmi none rest
    else openLoop prices rmi o rest

/-- The chronological list of completed round trips of the whole pass
(spec §4.3: "each completed (buy at p0, sell at p1) pair, in order"). -/
def completedPairs (prices : List ℚ) (rmi : List (Option ℚ)) : List (ℚ × ℚ) :=
  pairsLoop prices rmi none (List.range' 1 (rmi.length - 1))

lemma rmiLoop_capital_open (prices : List ℚ) (rmi : List (Option ℚ)) :
    ∀ (L : List ℕ) (s : RMIState),
      (rmiLoop prices rmi s L).capital =
        (pairsLoop prices rmi s.latestBuy L).foldl tradeFactor s.capital ∧
      (rmiLoop prices rmi s L).latestBuy = openLoop prices rmi s.latestBuy L := by
  intro L
  induction L with
  | nil => intro s; simp [rmiLoop, pairsLoop, openLoop]
  | cons i rest ih =>
    intro s
    by_cases hb : buyCond rmi i
    · have := ih (rmiStep prices rmi s i)
      simpa [rmiLoop, pairsLoop, openLoop, rmiStep, hb] using this
    · by_cases hs : sellCond rmi i ∧ s.latestBuy ≠ none
      · have := ih (rmiStep prices rmi s i)
        simpa [rmiLoop, pairsLoop, openLoop, rmiStep, hb, hs, tradeFactor] using this
      · have := ih (rmiStep prices rmi s i)
        simpa [rmiLoop, pairsLoop, openLoop, rmiStep, hb, hs] using this

lemma finalState_capital (prices : List ℚ) (rmi : List (Option ℚ)) :
    (rmiFinalState prices rmi).capital =
      (completedPairs prices rmi).foldl tradeFactor 100 :=
  (rmiLoop_capital_open prices rmi (List.range' 1 (rmi.length - 1)) initRMIState).1

lemma finalState_latestBuy (prices : List ℚ) (rmi : List (Option ℚ)) :
    (rmiFinalState prices rmi).latestBuy =
      openLoop prices rmi none (List.range' 1 (rmi.length - 1)) :=
  (rmiLoop_capital_open prices rmi (List.range' 1 (rmi.length - 1)) initRMIState).2

/-- Invariant of the `calculateRMIProfit` loop state after all indices `< i`
have been processed: point indices are bounded and sorted, the tracked open
entry price is the price of the most recent buy event, a flat state means
every buy has been followed by a sell, `latestSell` records the most recent
sell, sell events are interleaved with buys, and events only occur at
defined indicator values (sells only need the previous value defined). -/
structure StateInv (rmi : List (Option ℚ)) (i : ℕ) (s : RMIState) : Prop where
  buyBound : ∀ p ∈ s.buyPoints, p.x < i
  sellBound : ∀ p ∈ s.sellPoints, p.x < i
  buySorted : s.buyPoints.Pairwise (fun a b => a.x < b.x)
  sellSorted : s.sellPoints.Pairwise (fun a b => a.x < b.x)
  openLast : ∀ b, s.latestBuy = some b →
    ∃ p ∈ s.buyPoints, p.price = b ∧ (∀ q ∈ s.buyPoints, q.x ≤ p.x) ∧
      (∀ q ∈ s.sellPoints, q.x < p.x)
  flatClosed : s.latestBuy = none → ∀ p ∈ s.buyPoints, ∃ q ∈ s.sellPoints, p.x < q.x
  soldIff : s.latestSell ≠ none ↔ s.sellPoints ≠ []
  soldLast : ∀ v, s.latestSell = some v →
    ∃ p ∈ s.sellPoints, p.price = v ∧ ∀ q ∈ s.sellPoints, q.x ≤ p.x
  sellsInterleaved :
    s.sellPoints.Pairwise (fun t u => ∃ b ∈ s.buyPoints, t.x < b.x ∧ b.x < u.x)
  buyDefined : ∀ p ∈ s.buyPoints,
    rmi.getD (p.x - 1) none ≠ none ∧ rmi.getD p.x none ≠ none
  sellDefined : ∀ p ∈ s.sellPoints, rmi.getD (p.x - 1) none ≠ none
  sellHasBuy : ∀ t ∈ s.sellPoints, ∃ b ∈ s.buyPoints, b.x < t.x

lemma StateInv.mono {rmi : List (Option ℚ)} {i i' : ℕ} {s : RMIState}
    (h : StateInv rmi i s) (hii : i ≤ i') : StateInv rmi i' s :=
  { h with
    buyBound := fun p hp => lt_of_lt_of_le (h.buyBound p hp) hii
    sellBound := fun p hp => lt_of_lt_of_le (h.sellBound p hp) hii }

lemma jnum_pos_ne_none {v : Option ℚ} {c : ℚ} (hc : 0 ≤ c) (h : c < jnum v) :
    v ≠ none := by
  intro hv
  rw [hv] at h
  simp only [jnum, Option.getD_none] at h
  exact absurd (lt_of_le_of_lt hc h) (lt_irrefl 0)

lemma stateInv_init (rmi : List (Option ℚ)) : StateInv rmi 1 initRMIState := by
  refine ⟨?_, ?_, ?_, ?_, ?_, ?_, ?_, ?_, ?_, ?_, ?_, ?_⟩ <;>
    simp [initRMIState]

lemma stateInv_step (prices : List ℚ) (rmi : List (Option ℚ)) {i j : ℕ}
    {s : RMIState} (h : StateInv rmi i s) (hij : i ≤ j) :
    StateInv rmi (j + 1) (rmiStep prices rmi s j) := by
  by_cases hb : buyCond rmi j
  · -- buy branch: append a buy point, set the open entry price
    have hcur : rmi.getD j none ≠ none := jnum_pos_ne_none (by norm_num) hb.2.1
    refine ⟨?_, ?_, ?_, ?_, ?_, ?_, ?_, ?_, ?_, ?_, ?_, ?_⟩ <;>
      simp only [rmiStep, if_pos hb]
    · intro p hp
      rcases List.mem_append.1 hp with hp | hp
      · exact lt_of_lt_of_le (h.buyBound p hp) (by omega)
      · simp at hp; subst hp; exact Nat.lt_succ_self j
    · exact fun p hp => lt_of_lt_of_le (h.sellBound p hp) (by omega)
    · refine List.pairwise_append.2 ⟨h.buySorted, List.pairwise_singleton _ _, ?_⟩
      intro a ha b hbm
      simp at hbm
      subst hbm
      exact lt_of_lt_of_le (h.buyBound a ha) hij
    · exact h.sellSorted
    · intro b hbq
      simp only [Option.some.injEq] at hbq
      refine ⟨⟨j, rmi.getD j none, prices.getD j 0⟩,
        List.mem_append_right _ (List.mem_singleton.2 rfl), hbq ▸ rfl, ?_, ?_⟩
      · intro q hq
        rcases List.mem_append.1 hq with hq | hq
        · exact le_of_lt (lt_of_lt_of_le (h.buyBound q hq) hij)
        · simp at hq; subst hq; exact le_refl j
      · exact fun q hq => lt_of_lt_of_le (h.sellBound q hq) hij
    · intro hnone; simp at hnone
    · exact h.soldIff
    · exact h.soldLast
    · refine h.sellsInterleaved.imp ?_
      rintro t u ⟨b, hbmem, htb, hbu⟩
      exact ⟨b, List.mem_append_left _ hbmem, htb, hbu⟩
    · intro p hp
      rcases List.mem_append.1 hp with hp | hp
      · exact h.buyDefined p hp
      · simp at hp
        subst hp
        exact ⟨hb.2.2, hcur⟩
    · exact h.sellDefined
    · intro t ht
      rcases h.sellHasBuy t ht with ⟨b, hbm, hbt⟩
      exact ⟨b, List.mem_append_left _ hbm, hbt⟩
  · by_cases hs : sellCond rmi j ∧ s.latestBuy ≠ none
    · -- sell branch: append a sell point, close the position
      rcases Option.ne_none_iff_exists'.1 hs.2 with ⟨b₀, hb₀⟩
      have hprev : rmi.getD (j - 1) none ≠ none :=
        jnum_pos_ne_none (by norm_num) hs.1.1
      rcases h.openLast b₀ hb₀ with ⟨pb, hpbmem, _, _, hpbsell⟩
      have hpbj : pb.x < j := lt_of_lt_of_le (h.buyBound pb hpbmem) hij
      refine ⟨?_, ?_, ?_, ?_, ?_, ?_, ?_, ?_, ?_, ?_, ?_, ?_⟩ <;>
        simp only [rmiStep, if_neg hb, if_pos hs]
      · exact fun p hp => lt_of_lt_of_le (h.buyBound p hp) (by omega)
      · intro p hp
        rcases List.mem_append.1 hp with hp | hp
        · exact lt_of_lt_of_le (h.sellBound p hp) (by omega)
        · simp at hp; subst hp; exact Nat.lt_succ_self j
      · exact h.buySorted
      · refine List.pairwise_append.2 ⟨h.sellSorted, List.pairwise_singleton _ _, ?_⟩
        intro a ha b hbm
        simp at hbm
        subst hbm
        exact lt_of_lt_of_le (h.sellBound a ha) hij
      · intro b hbq; simp at hbq
      · intro _ p hp
        exact ⟨⟨j, rmi.getD j none, prices.getD j 0⟩,
          List.mem_append_right _ (List.mem_singleton.2 rfl),
          lt_of_lt_of_le (h.buyBound p hp) hij⟩
      · simp
      · intro v hv
        simp only [Option.some.injEq] at hv
        refine ⟨⟨j, rmi.getD j none, prices.getD j 0⟩,
          List.mem_append_right _ (List.mem_singleton.2 rfl), hv ▸ rfl, ?_⟩
        intro q hq
        rcases List.mem_append.1 hq with hq | hq
        · exact le_of_lt (lt_of_lt_of_le (h.sellBound q hq) hij)
        · simp at hq; subst hq; exact le_refl j
      · refine List.pairwise_append.2 ⟨h.sellsInterleaved, List.pairwise_singleton _ _, ?_⟩
        intro t ht u hu
        simp at hu
        subst hu
        exact ⟨pb, hpbmem, hpbsell t ht, hpbj⟩
      · exact h.buyDefined
      · intro p hp
        rcases List.mem_append.1 hp with hp | hp
        · exact h.sellDefined p hp
        · simp at hp
          subst hp
          exact hprev
      · intro t ht
        rcases List.mem_append.1 ht with ht | ht
        · exact h.sellHasBuy t ht
        · simp at ht
          subst ht
          exact ⟨pb, hpbmem, hpbj⟩
    · -- skip branch: state unchanged
      have : rmiStep prices rmi s j = s := by
        simp [rmiStep, if_neg hb, if_neg hs]
      rw [this]
      exact h.mono (by omega)

lemma stateInv_loop (prices : List ℚ) (rmi : List (Option ℚ)) :
    ∀ (m a i : ℕ) (s : RMIState), StateInv rmi i s → i ≤ a →
      StateInv rmi (a + m) (rmiLoop prices rmi s (List.range' a m)) := by
  intro m
  induction m with
  | zero =>
    intro a i s h hia
    simpa [rmiLoop] using h.mono (by omega)
  | succ m ih =>
    intro a i s h hia
    rw [List.range'_succ]
    have hstep := stateInv_step prices rmi h hia
    have := ih (a + 1) (a + 1) (rmiStep prices rmi s a) hstep (le_refl _)
    rw [rmiLoop]
    have harith : a + 1 + m = a + (m + 1) := by omega
    rw [harith] at this
    exact this

/-- The master invariant holds of the final loop state of every run. -/
lemma stateInv_final (prices : List ℚ) (rmi : List (Option ℚ)) :
    StateInv rmi (1 + (rmi.length - 1)) (rmiFinalState prices rmi) :=
  stateInv_loop prices rmi (rmi.length - 1) 1 1 initRMIState
    (stateInv_init rmi) (le_refl 1)

lemma rmiLoop_append (prices : List ℚ) (rmi : List (Option ℚ))
    (L1 L2 : List ℕ) : ∀ s : RMIState,
    rmiLoop prices rmi s (L1 ++ L2) =
      rmiLoop prices rmi (rmiLoop prices rmi s L1) L2 := by
  induction L1 with
  | nil => intro s; rfl
  | cons i rest ih => intro s; simp only [List.cons_append, rmiLoop]; exact ih _

lemma rmiLoop_points (prices : List ℚ) (rmi : List (Option ℚ)) :
    ∀ (L : List ℕ) (s : RMIState),
      ∃ tb ts,
        (rmiLoop prices rmi s L).buyPoints = s.buyPoints ++ tb ∧
        (rmiLoop prices rmi s L).sellPoints = s.sellPoints ++ ts ∧
        (∀ p ∈ tb, p.x ∈ L) ∧ (∀ p ∈ ts, p.x ∈ L) := by
  intro L
  induction L with
  | nil => intro s; exact ⟨[], [], by simp [rmiLoop], by simp [rmiLoop], by simp, by simp⟩
  | cons i rest ih =>
    intro s
    rcases ih (rmiStep prices rmi s i) with ⟨tb, ts, hb, hs, htb, hts⟩
    by_cases hbc : buyCond rmi i
    · refine ⟨⟨i, rmi.getD i none, prices.getD i 0⟩ :: tb, ts, ?_, ?_, ?_, ?_⟩
      · rw [rmiLoop, hb]; simp [rmiStep, if_pos hbc]
      · rw [rmiLoop, hs]; simp [rmiStep, if_pos hbc]
      · intro p hp
        rcases List.mem_cons.1 hp with hp | hp
        · subst hp; exact List.mem_cons_self _ _
        · exact List.mem_cons_of_mem _ (htb p hp)
      · exact fun p hp => List.mem_cons_of_mem _ (hts p hp)
    · by_cases hsc : sellCond rmi i ∧ s.latestBuy ≠ none
      · refine ⟨tb, ⟨i, rmi.getD i none, prices.getD i 0⟩ :: ts, ?_, ?_, ?_, ?_⟩
        · rw [rmiLoop, hb]; simp [rmiStep, if_neg hbc, if_pos hsc]
        · rw [rmiLoop, hs]; simp [rmiStep, if_neg hbc, if_pos hsc]
        · exact fun p hp => List.mem_cons_of_mem _ (htb p hp)
        · intro p hp
          rcases List.mem_cons.1 hp with hp | hp
          · subst hp; exact List.mem_cons_self _ _
          · exact List.mem_cons_of_mem _ (hts p hp)
      · refine ⟨tb, ts, ?_, ?_, ?_, ?_⟩
        · rw [rmiLoop, hb]; simp [rmiStep, if_neg hbc, if_neg hsc]
        · rw [rmiLoop, hs]; simp [rmiStep, if_neg hbc, if_neg hsc]
        · exact fun p hp => List.mem_cons_of_mem _ (htb p hp)
        · exact fun p hp => List.mem_cons_of_mem _ (hts p hp)

/-- The index list of the pass, split at a processed index `i`. -/
lemma range'_split {n i : ℕ} (h1 : 1 ≤ i) (h2 : i < n) :
    List.range' 1 (n - 1) =
      List.range' 1 (i - 1) ++ i :: List.range' (i + 1) (n - 1 - i) := by
  have hs : List.range' 1 (i - 1) ++ List.range' (1 + 1 * (i - 1)) (n - i) 1 =
      List.range' 1 (n - i + (i - 1)) := List.range'_append 1 (i - 1) (n - i) 1
  have e1 : 1 + 1 * (i - 1) = i := by omega
  have e2 : n - i + (i - 1) = n - 1 := by omega
  rw [e1, e2] at hs
  rw [← hs]
  congr 1
  have e3 : n - i = (n - 1 - i) + 1 := by omega
  rw [e3, List.range'_succ]

/-- The pass state just before index `i` is processed. -/
def stateBefore (prices : List ℚ) (rmi : List (Option ℚ)) (i : ℕ) : RMIState :=
  rmiLoop prices rmi initRMIState (List.range' 1 (i - 1))

lemma stateInv_before (prices : List ℚ) (rmi : List (Option ℚ)) {i : ℕ}
    (h1 : 1 ≤ i) : StateInv rmi i (stateBefore prices rmi i) := by
  have := stateInv_loop prices rmi (i - 1) 1 1 initRMIState (stateInv_init rmi)
    (le_refl 1)
  have e : 1 + (i - 1) = i := by omega
  rw [e] at this
  exact this

lemma buyCond_not_sellCond {rmi : List (Option ℚ)} {i : ℕ}
    (hb : buyCond rmi i) : ¬ sellCond rmi i := by
  rintro ⟨h70, _⟩
  exact absurd (lt_trans (by norm_num : (30:ℚ) < 70) h70)
    (not_lt_of_lt hb.1)

/-- Per-index event characterization: index `i` of the pass carries a buy
point exactly when the buy condition holds there, and a sell point exactly
when the sell threshold condition holds there with an open position. -/
lemma eventAt_iff (prices : List ℚ) (rmi : List (Option ℚ)) {i : ℕ}
    (h1 : 1 ≤ i) (h2 : i < rmi.length) :
    ((∃ p ∈ (calculateRMIProfit prices rmi).buyPoints, p.x = i) ↔ buyCond rmi i) ∧
    ((∃ p ∈ (calculateRMIProfit prices rmi).sellPoints, p.x = i) ↔
      (sellCond rmi i ∧ (stateBefore prices rmi i).latestBuy ≠ none)) := by
  have hsplit := range'_split h1 h2
  have hfin : rmiFinalState prices rmi =
      rmiLoop prices rmi (rmiStep prices rmi (stateBefore prices rmi i) i)
        (List.range' (i + 1) (rmi.length - 1 - i)) := by
    rw [rmiFinalState, hsplit, rmiLoop_append]
    rfl
  set s1 := stateBefore prices rmi i with hs1
  have hinv : StateInv rmi i s1 := stateInv_before prices rmi h1
  rcases rmiLoop_points prices rmi (List.range' (i + 1) (rmi.length - 1 - i))
    (rmiStep prices rmi s1 i) with ⟨tb, ts, htb, hts, htbx, htsx⟩
  have htbgt : ∀ p ∈ tb, i < p.x := by
    intro p hp
    have := List.mem_range'_1.1 (htbx p hp)
    omega
  have htsgt : ∀ p ∈ ts, i < p.x := by
    intro p hp
    have := List.mem_range'_1.1 (htsx p hp)
    omega
  have hbuys : (calculateRMIProfit prices rmi).buyPoints =
      (rmiStep prices rmi s1 i).buyPoints ++ tb := by
    show (rmiFinalState prices rmi).buyPoints = _
    rw [hfin, htb]
  have hsells : (calculateRMIProfit prices rmi).sellPoints =
      (rmiStep prices rmi s1 i).sellPoints ++ ts := by
    show (rmiFinalState prices rmi).sellPoints = _
    rw [hfin, hts]
  constructor
  · rw [hbuys]
    constructor
    · rintro ⟨p, hp, hpx⟩
      rcases List.mem_append.1 hp with hp | hp
      · by_cases hbc : buyCond rmi i
        · exact hbc
        · exfalso
          by_cases hsc : sellCond rmi i ∧ s1.latestBuy ≠ none
          · simp only [rmiStep, if_neg hbc, if_pos hsc] at hp
            have := hinv.buyBound p hp
            omega
          · simp only [rmiStep, if_neg hbc, if_neg hsc] at hp
            have := hinv.buyBound p hp
            omega
      · have := htbgt p hp
        omega
    · intro hbc
      refine ⟨⟨i, rmi.getD i none, prices.getD i 0⟩, ?_, rfl⟩
      refine List.mem_append_left _ ?_
      simp [rmiStep, if_pos hbc]
  · rw [hsells]
    constructor
    · rintro ⟨p, hp, hpx⟩
      rcases List.mem_append.1 hp with hp | hp
      · by_cases hbc : buyCond rmi i
        · exfalso
          simp only [rmiStep, if_pos hbc] at hp
          have := hinv.sellBound p hp
          omega
        · by_cases hsc : sellCond rmi i ∧ s1.latestBuy ≠ none
          · exact hsc
          · exfalso
            simp only [rmiStep, if_neg hbc, if_neg hsc] at hp
            have := hinv.sellBound p hp
            omega
      · have := htsgt p hp
        omega
    · rintro ⟨hsc, hopen⟩
      have hbc : ¬ buyCond rmi i := fun hb => buyCond_not_sellCond hb hsc
      refine ⟨⟨i, rmi.getD i none, prices.getD i 0⟩, ?_, rfl⟩
      refine List.mem_append_left _ ?_
      simp [rmiStep, if_neg hbc, if_pos (⟨hsc, hopen⟩ : sellCond rmi i ∧ s1.latestBuy ≠ none)]

lemma rmiLoop_sell_count (prices : List ℚ) (rmi : List (Option ℚ)) :
    ∀ (L : List ℕ) (s : RMIState),
      (rmiLoop prices rmi s L).sellPoints.length =
        s.sellPoints.length + (pairsLoop prices rmi s.latestBuy L).length := by
  intro L
  induction L with
  | nil => intro s; simp [rmiLoop, pairsLoop]
  | cons i rest ih =>
    intro s
    by_cases hb : buyCond rmi i
    · have := ih (rmiStep prices rmi s i)
      simpa [rmiLoop, pairsLoop, rmiStep, hb] using this
    · by_cases hs : sellCond rmi i ∧ s.latestBuy ≠ none
      · have := ih (rmiStep prices rmi s i)
        simp only [rmiStep, if_neg hb, if_pos hs] at this
        simp only [rmiLoop, rmiStep, if_neg hb, if_pos hs, pairsLoop]
        simp at this ⊢
        omega
      · have := ih (rmiStep prices rmi s i)
        simpa [rmiLoop, pairsLoop, rmiStep, hb, hs] using this

lemma finalState_sell_count (prices : List ℚ) (rmi : List (Option ℚ)) :
    (rmiFinalState prices rmi).sellPoints.length =
      (completedPairs prices rmi).length := by
  have := rmiLoop_sell_count prices rmi (List.range' 1 (rmi.length - 1)) initRMIState
  simpa [initRMIState, completedPairs] using this

/-- The property claimed of the signal sequence: between any two buy events
there is an intervening sell event. -/
def NoDoubleBuy (prices : List ℚ) (rmi : List (Option ℚ)) : Prop :=
  ∀ p ∈ (calculateRMIProfit prices rmi).buyPoints,
    ∀ q ∈ (calculateRMIProfit prices rmi).buyPoints,
      p.x < q.x →
        ∃ t ∈ (calculateRMIProfit prices rmi).sellPoints, p.x < t.x ∧ t.x < q.x

/-- The claimed buy/sell emission rule: a buy exactly at an upward crossing
through 30 (previous below, current at or above 30) of defined values while
flat; a sell exactly at a downward crossing through 70 while a position is
open. -/
def SpecCrossingRule (prices : List ℚ) (rmi : List (Option ℚ)) : Prop :=
  ∀ i ∈ List.range' 1 (rmi.length - 1),
    ((∃ p ∈ (calculateRMIProfit prices rmi).buyPoints, p.x = i) ↔
      (rmi.getD (i - 1) none ≠ none ∧ rmi.getD i none ≠ none ∧
        jnum (rmi.getD (i - 1) none) < 30 ∧ 30 ≤ jnum (rmi.getD i none) ∧
        (stateBefore prices rmi i).latestBuy = none)) ∧
    ((∃ p ∈ (calculateRMIProfit prices rmi).sellPoints, p.x = i) ↔
      ((stateBefore prices rmi i).latestBuy ≠ none ∧
        70 < jnum (rmi.getD (i - 1) none) ∧ jnum (rmi.getD i none) < 70))

/-- The claimed definedness rule: every emitted event sits at an index whose
current and previous indicator values are both defined. -/
def EventsDefined (prices : List ℚ) (rmi : List (Option ℚ)) : Prop :=
  (∀ p ∈ (calculateRMIProfit prices rmi).buyPoints,
    rmi.getD (p.x - 1) none ≠ none ∧ rmi.getD p.x none ≠ none) ∧
  (∀ p ∈ (calculateRMIProfit prices rmi).sellPoints,
    rmi.getD (p.x - 1) none ≠ none ∧ rmi.getD p.x none ≠ none)

/-- The most recent emitted event is a buy: some buy point at or after every
other point. -/
def lastEventIsBuy (r : RMIResult) : Prop :=
  ∃ p ∈ r.buyPoints, (∀ q ∈ r.buyPoints, q.x ≤ p.x) ∧
    (∀ q ∈ r.sellPoints, q.x < p.x)

/-- The most recent emitted event is a sell with no subsequent buy. -/
def lastEventIsSell (r : RMIResult) : Prop :=
  ∃ p ∈ r.sellPoints, (∀ q ∈ r.sellPoints, q.x ≤ p.x) ∧
    (∀ q ∈ r.buyPoints, q.x < p.x)

/-- The claimed contract for the returned latest prices: `latestBuyPrice` is
non-null iff the most recent event is an unmatched buy, and
`latestSellPrice` is non-null iff the most recent event is a completed sell
with no subsequent buy. -/
def LatestPriceContract (prices : List ℚ) (rmi : List (Option ℚ)) : Prop :=
  ((calculateRMIProfit prices rmi).latestBuyPrice ≠ none ↔
    lastEventIsBuy (calculateRMIProfit prices rmi)) ∧
  ((calculateRMIProfit prices rmi).latestSellPrice ≠ none ↔
    lastEventIsSell (calculateRMIProfit prices rmi))

instance (prices : List ℚ) (rmi : List (Option ℚ)) :
    Decidable (NoDoubleBuy prices rmi) := by
  unfold NoDoubleBuy; infer_instance

instance (prices : List ℚ) (rmi : List (Option ℚ)) :
    Decidable (SpecCrossingRule prices rmi) := by
  unfold SpecCrossingRule; infer_instance

instance (prices : List ℚ) (rmi : List (Option ℚ)) :
    Decidable (EventsDefined prices rmi) := by
  unfold EventsDefined; infer_instance

instance (r : RMIResult) : Decidable (lastEventIsBuy r) := by
  unfold lastEventIsBuy; infer_instance

instance (r : RMIResult) : Decidable (lastEventIsSell r) := by
  unfold lastEventIsSell; infer_instance

instance (prices : List ℚ) (rmi : List (Option ℚ)) :
    Decidable (LatestPriceContract prices rmi) := by
  unfold LatestPriceContract; infer_instance

lemma calc_profit_eq (prices : List ℚ) (rmi : List (Option ℚ)) :
    (calculateRMIProfit prices rmi).profit =
      (match (rmiFinalState prices rmi).latestBuy with
        | some b => (rmiFinalState prices rmi).capital *
            (1 + (prices.getD (prices.length - 1) 0 - b) / b)
        | none => (rmiFinalState prices rmi).capital) - 100 := rfl

lemma calc_latestBuy_eq (prices : List ℚ) (rmi : List (Option ℚ)) :
    (calculateRMIProfit prices rmi).latestBuyPrice =
      (rmiFinalState prices rmi).latestBuy := rfl

/-- Claim C1, as stated, is false of the code: on the indicator series
`[20, 40, 20, 40]` the pass emits buy events at indices 1 and 3 with no
intervening sell (the buy branch never checks whether a position is already
open). -/
theorem claim_C1_counterexample :
    ¬ NoDoubleBuy [10, 11, 12, 13] [some 20, some 40, some 20, some 40] := by
  decide

/-- Claim C1 (amended): the signal sequence may contain two buy events with
no intervening sell (a repeated buy overwrites the tracked entry price);
what the pass does guarantee is the dual single-position invariant: every
sell event closes some earlier buy, and between any two sell events there
is an intervening buy. -/
theorem claim_C1_amended (prices : List ℚ) (rmi : List (Option ℚ)) :
    (∀ t ∈ (calculateRMIProfit prices rmi).sellPoints,
      ∃ b ∈ (calculateRMIProfit prices rmi).buyPoints, b.x < t.x) ∧
    (calculateRMIProfit prices rmi).sellPoints.Pairwise
      (fun t u => ∃ b ∈ (calculateRMIProfit prices rmi).buyPoints,
        t.x < b.x ∧ b.x < u.x) :=
  ⟨(stateInv_final prices rmi).sellHasBuy,
    (stateInv_final prices rmi).sellsInterleaved⟩

/-- Claim C2: the profit computation starts from capital 100, multiplies the
capital by `1 + (p1 - p0)/p0` for each completed (buy at `p0`, sell at `p1`)
pair in chronological order (and, when a position is still open at the end,
applies the synthetic close at the last price with the same rule), and
returns `profitPercent` equal to the final capital minus 100. -/
theorem claim_C2_profit_compounding (prices : List ℚ) (rmi : List (Option ℚ)) :
    (calculateRMIProfit prices rmi).profit =
      (match (calculateRMIProfit prices rmi).latestBuyPrice with
        | some b => ((completedPairs prices rmi).foldl tradeFactor 100) *
            (1 + (prices.getD (prices.length - 1) 0 - b) / b)
        | none => (completedPairs prices rmi).foldl tradeFactor 100) - 100 := by
  rw [calc_profit_eq, calc_latestBuy_eq]
  cases hfb : (rmiFinalState prices rmi).latestBuy with
  | none => simp [finalState_capital]
  | some b => simp [finalState_capital]

/-- Claim C3, as stated, is false of the code: on the indicator series
`[20, 30]` the value crosses from below 30 to exactly 30 with no open
position, so the claimed rule emits a buy at index 1, but the code requires
a strict `> 30` and emits nothing. -/
theorem claim_C3_counterexample :
    ¬ SpecCrossingRule [10, 20] [some 20, some 30] := by
  decide

/-- Claim C3 (amended): a buy event is emitted at index `i` exactly when the
previous value is defined and below 30 and the current value is strictly
above 30 — regardless of whether a position is open — and a sell event is
emitted exactly when a position is open and the value moves from strictly
above 70 to strictly below 70. -/
theorem claim_C3_amended (prices : List ℚ) (rmi : List (Option ℚ)) :
    ∀ i ∈ List.range' 1 (rmi.length - 1),
      ((∃ p ∈ (calculateRMIProfit prices rmi).buyPoints, p.x = i) ↔
        buyCond rmi i) ∧
      ((∃ p ∈ (calculateRMIProfit prices rmi).sellPoints, p.x = i) ↔
        (sellCond rmi i ∧ (stateBefore prices rmi i).latestBuy ≠ none)) := by
  intro i hi
  obtain ⟨h1, h2⟩ := List.mem_range'_1.1 hi
  exact eventAt_iff prices rmi h1 (by omega)

/-- Witness for the amended claim C3 at a concrete input. -/
theorem claim_C3_amended_witness :
    (1 : ℕ) ∈ List.range' 1 ([some 20, some 40].length - 1) ∧
    (((∃ p ∈ (calculateRMIProfit [10, 20] [some 20, some 40]).buyPoints,
        p.x = 1) ↔ buyCond [some 20, some 40] 1) ∧
      ((∃ p ∈ (calculateRMIProfit [10, 20] [some 20, some 40]).sellPoints,
        p.x = 1) ↔
        (sellCond [some 20, some 40] 1 ∧
          (stateBefore [10, 20] [some 20, some 40] 1).latestBuy ≠ none))) :=
  ⟨by decide, claim_C3_amended [10, 20] [some 20, some 40] 1 (by decide)⟩

/-- Claim C5: when the pass ends with an open position (entry price `b`),
the returned profit applies exactly one synthetic close at the last
available price with the usual update rule; the synthetic close is for
reporting only — the emitted buy and sell point lists are those of the
loop, the sell list gains no entry for it (it stays in bijection with the
completed pairs), and the open entry price is returned unchanged. -/
theorem claim_C5_synthetic_close (prices : List ℚ) (rmi : List (Option ℚ))
    (b : ℚ) (h : (rmiFinalState prices rmi).latestBuy = some b) :
    (calculateRMIProfit prices rmi).profit =
      (rmiFinalState prices rmi).capital *
        (1 + (prices.getD (prices.length - 1) 0 - b) / b) - 100 ∧
    (calculateRMIProfit prices rmi).buyPoints =
      (rmiFinalState prices rmi).buyPoints ∧
    (calculateRMIProfit prices rmi).sellPoints =
      (rmiFinalState prices rmi).sellPoints ∧
    (calculateRMIProfit prices rmi).sellPoints.length =
      (completedPairs prices rmi).length ∧
    (calculateRMIProfit prices rmi).latestBuyPrice = some b ∧
    (calculateRMIProfit prices rmi).latestSellPrice =
      (rmiFinalState prices rmi).latestSell := by
  refine ⟨?_, rfl, rfl, ?_, ?_, rfl⟩
  · rw [calc_profit_eq, h]
  · exact finalState_sell_count prices rmi
  · rw [calc_latestBuy_eq, h]

/-- Witness for claim C5: a single unmatched buy at the series end gives one
buy point, no sell points, `latestBuyPrice` equal to the buy price, and a
profit that is exactly the synthetic end-of-series close. -/
theorem claim_C5_witness :
    (rmiFinalState [4, 6] [some 20, some 40]).latestBuy = some 6 ∧
    ((calculateRMIProfit [4, 6] [some 20, some 40]).profit =
      (rmiFinalState [4, 6] [some 20, some 40]).capital *
        (1 + (List.getD [4, 6] ([4, 6].length - 1) 0 - 6) / 6) - 100 ∧
    (calculateRMIProfit [4, 6] [some 20, some 40]).buyPoints =
      (rmiFinalState [4, 6] [some 20, some 40]).buyPoints ∧
    (calculateRMIProfit [4, 6] [some 20, some 40]).sellPoints =
      (rmiFinalState [4, 6] [some 20, some 40]).sellPoints ∧
    (calculateRMIProfit [4, 6] [some 20, some 40]).sellPoints.length =
      (completedPairs [4, 6] [some 20, some 40]).length ∧
    (calculateRMIProfit [4, 6] [some 20, some 40]).latestBuyPrice = some 6 ∧
    (calculateRMIProfit [4, 6] [some 20, some 40]).latestSellPrice =
      (rmiFinalState [4, 6] [some 20, some 40]).latestSell) :=
  ⟨by decide, claim_C5_synthetic_close [4, 6] [some 20, some 40] 6 (by decide)⟩

/-- Claim C6, as stated, is false of the code: after buy, sell, buy, the
most recent event is a buy, yet `latestSellPrice` is still non-null (it is
never reset when a later buy occurs). -/
theorem claim_C6_counterexample :
    ¬ LatestPriceContract [1, 2, 3, 4, 5, 6]
        [some 20, some 40, some 80, some 60, some 20, some 40] := by
  decide

/-- Claim C6 (amended): `latestBuyPrice` is non-null iff the most recent
emitted event is an unmatched buy, but `latestSellPrice` is non-null iff at
least one sell event was emitted — it keeps the price of the most recent
sell even when a buy follows. -/
theorem claim_C6_amended (prices : List ℚ) (rmi : List (Option ℚ)) :
    ((calculateRMIProfit prices rmi).latestBuyPrice ≠ none ↔
      lastEventIsBuy (calculateRMIProfit prices rmi)) ∧
    ((calculateRMIProfit prices rmi).latestSellPrice ≠ none ↔
      (calculateRMIProfit prices rmi).sellPoints ≠ []) := by
  have hinv := stateInv_final prices rmi
  constructor
  · constructor
    · intro hne
      rcases Option.ne_none_iff_exists'.1 hne with ⟨b, hb⟩
      rcases hinv.openLast b hb with ⟨p, hpm, _, hmax, hsmax⟩
      exact ⟨p, hpm, hmax, hsmax⟩
    · intro hle
      cases hfb : (rmiFinalState prices rmi).latestBuy with
      | some b => simp [calc_latestBuy_eq, hfb]
      | none =>
        exfalso
        rcases hle with ⟨p, hpm, _, hsmax⟩
        rcases hinv.flatClosed hfb p hpm with ⟨q, hqm, hpq⟩
        exact absurd (hsmax q hqm) (not_lt_of_lt hpq)
  · exact hinv.soldIff

/-- Claim C7, as stated, is false of the code: with the indicator series
`[20, 40, 80, null]`, JavaScript evaluates `null < 70` as `0 < 70`, so a
sell fires at index 3 even though the current indicator value is undefined
there. -/
theorem claim_C7_counterexample :
    ¬ EventsDefined [10, 11, 12, 13] [some 20, some 40, some 80, none] := by
  decide

/-- Claim C7 (amended): buy events occur only where both the previous and
current indicator values are defined, and sell events only where the
previous value is defined (the current value of a sell may be undefined,
being coerced to 0 by the `< 70` comparison); an index whose previous value
is undefined is skipped with no state change at all. -/
theorem claim_C7_amended (prices : List ℚ) (rmi : List (Option ℚ)) :
    (∀ p ∈ (calculateRMIProfit prices rmi).buyPoints,
      rmi.getD (p.x - 1) none ≠ none ∧ rmi.getD p.x none ≠ none) ∧
    (∀ p ∈ (calculateRMIProfit prices rmi).sellPoints,
      rmi.getD (p.x - 1) none ≠ none) ∧
    (∀ (s : RMIState) (i : ℕ), rmi.getD (i - 1) none = none →
      rmiStep prices rmi s i = s) := by
  have hinv := stateInv_final prices rmi
  refine ⟨hinv.buyDefined, hinv.sellDefined, ?_⟩
  intro s i hnone
  have hb : ¬ buyCond rmi i := fun hc => hc.2.2 hnone
  have hs : ¬ (sellCond rmi i ∧ s.latestBuy ≠ none) := by
    rintro ⟨⟨h70, _⟩, _⟩
    rw [hnone] at h70
    simp only [jnum, Option.getD_none] at h70
    exact absurd h70 (by norm_num)
  simp [rmiStep, hb, hs]

/-- Claim C10: an indicator series shorter than 2 entries produces the
degenerate result — zero profit, no events, and null latest prices — for
every price series. -/
theorem claim_C10_short_input (prices : List ℚ) (rmi : List (Option ℚ))
    (h : rmi.length < 2) :
    calculateRMIProfit prices rmi = ⟨0, [], [], none, none⟩ := by
  have h0 : rmi.length - 1 = 0 := by omega
  have hfin : rmiFinalState prices rmi = initRMIState := by
    rw [rmiFinalState, h0]
    rfl
  have hres : calculateRMIProfit prices rmi =
      ⟨(100 : ℚ) - 100, [], [], none, none⟩ := by
    unfold calculateRMIProfit
    rw [hfin]
    rfl
  rw [hres]
  norm_num

/-- Witness for claim C10 on the empty input. -/
theorem claim_C10_witness :
    ([] : List (Option ℚ)).length < 2 ∧
    calculateRMIProfit [] [] = ⟨0, [], [], none, none⟩ :=
  ⟨by decide, claim_C10_short_input [] [] (by decide)⟩

/-! ## The scan scheduler (`NotificationBoard.checkForSignals`) -/

/-- The contents of `lastFetchTimeRef.current`: fetch time (ms since epoch),
requested period, and the enabled-indicator map in insertion order. -/
structure FetchMeta where
  time : ℤ
  period : String
  enabledIndicators : List (String × Bool)
deriving DecidableEq

/-- Model of `JSON.stringify` on the enabled-indicator object: serializes the
key→boolean entries in insertion order, so it distinguishes maps that hold
the same entries in different orders. -/
def jsonStringifyEnabled (l : List (String × Bool)) : String :=
  "\x7b" ++
    String.intercalate ","
      (l.map fun kv =>
        "\"" ++ kv.1 ++ "\":" ++ (if kv.2 then "true" else "false")) ++
  "\x7d"

/-- The `shouldFetchNewData` decision of `checkForSignals`: fetch when no
prior fetch exists, the last fetch is older than 5 minutes, the period
changed, or the `JSON.stringify` serializations of the indicator maps
differ. -/
def shouldFetchNewData (now : ℤ) (last : Option FetchMeta)
    (selectedPeriod : String) (enabledIndicators : List (String × Bool)) :
    Bool :=
  match last with
  | none => true
  | some l =>
    decide (5 * 60 * 1000 < now - l.time) ||
    decide (selectedPeriod ≠ l.period) ||
    decide (jsonStringifyEnabled enabledIndicators ≠
      jsonStringifyEnabled l.enabledIndicators)

/-- A notification record pushed by `addNotification`. -/
structure Notif where
  stock : String
  indicator : String
  signal : String
  price : ℚ
  timestamp : ℤ
  isNew : Bool
deriving DecidableEq

/-- The per-(symbol, indicator) notification block of `checkForSignals`:
if the latest buy price is set and a buy point exists, push one buy
notification for the last buy point; otherwise, if the latest sell price is
set and a sell point exists, push one sell notification for the last sell
point; otherwise push nothing.  `isNew` compares the event timestamp with
`lastUpdateTime` (epoch 0 when null). -/
def pairNotifs (symbol indKey : String) (dates : List ℤ) (lut : Option ℤ)
    (res : RMIResult) : List Notif :=
  if res.latestBuyPrice ≠ none ∧ res.buyPoints ≠ [] then
    match res.latestBuyPrice, res.buyPoints.getLast? with
    | some bp, some pt =>
      [⟨symbol, indKey, "buy", bp, dates.getD pt.x 0,
        decide (lut.getD 0 < dates.getD pt.x 0)⟩]
    | _, _ => []
  else if res.latestSellPrice ≠ none ∧ res.sellPoints ≠ [] then
    match res.latestSellPrice, res.sellPoints.getLast? with
    | some sp, some pt =>
      [⟨symbol, indKey, "sell", sp, dates.getD pt.x 0,
        decide (lut.getD 0 < dates.getD pt.x 0)⟩]
    | _, _ => []
  else []

/-- Insertion step of the descending-timestamp sort
(`(a, b) => b.timestamp - a.timestamp`), stable on ties. -/
def insertByTsDesc (n : Notif) : List Notif → List Notif
  | [] => [n]
  | m :: rest =>
    if m.timestamp < n.timestamp then n :: m :: rest
    else m :: insertByTsDesc n rest

/-- The descending-timestamp sort applied to the aggregated notifications
before they are published. -/
def sortByTsDesc : List Notif → List Notif
  | [] => []
  | n :: rest => insertByTsDesc n (sortByTsDesc rest)

/-- The component state touched by one `checkForSignals` cycle:
`cachedDataRef`, `lastFetchTimeRef`, and the published `notifications`,
`lastUpdateTime` and `error` states. -/
structure ScanState (α : Type) where
  cachedData : α
  lastFetch : Option FetchMeta
  notifications : List Notif
  lastUpdateTime : Option ℤ
  error : Option String
deriving DecidableEq

/-- One `checkForSignals` cycle.  `fetchResult` is the outcome the
`fetchStockData` call would have (only consulted when a fetch is issued);
`process` turns the raw dataset and the previous update time into the
aggregated notification list.  Returns the new state and whether a fetch
was issued.  A failed fetch is caught: it sets the error message and leaves
the cache, the published notifications and the update time unchanged. -/
def checkForSignals {α : Type} (fetchResult : Except String α)
    (process : α → Option ℤ → List Notif) (now : ℤ) (selectedPeriod : String)
    (enabledIndicators : List (String × Bool)) (st : ScanState α) :
    ScanState α × Bool :=
  if shouldFetchNewData now st.lastFetch selectedPeriod enabledIndicators then
    match fetchResult with
    | Except.error msg =>
      ({ st with error := some ("Failed to fetch stock data: " ++ msg) }, true)
    | Except.ok response =>
      ({ cachedData := response,
         lastFetch := some ⟨now, selectedPeriod, enabledIndicators⟩,
         notifications := sortByTsDesc (process response st.lastUpdateTime),
         lastUpdateTime := some now,
         error := none }, true)
  else
    ({ st with
       notifications := sortByTsDesc (process st.cachedData st.lastUpdateTime),
       lastUpdateTime := some now,
       error := none }, false)

lemma getLast?_max_x : ∀ {l : List ChartPoint},
    l.Pairwise (fun a b => a.x < b.x) → ∀ {p : ChartPoint},
      l.getLast? = some p → ∀ q ∈ l, q.x ≤ p.x := by
  intro l
  induction l with
  | nil => intro _ p hp; cases hp
  | cons a t ih =>
    intro hl p hp q hq
    cases t with
    | nil =>
      simp at hp
      subst hp
      simp at hq
      subst hq
      exact le_refl _
    | cons b t' =>
      rw [List.getLast?_cons_cons] at hp
      have hpc := List.pairwise_cons.1 hl
      rcases List.mem_cons.1 hq with hq | hq
      · subst hq
        exact le_of_lt (hpc.1 p (List.mem_of_mem_getLast? hp))
      · exact ih hpc.2 hp q hq

/-- Predicate: `nf` reports the single most recent signal event of `res`: a buy point
at or after every other event (the open entry) or a sell point at or after
every other event (the latest completed sell), with its price and its
timestamp taken from `dates` at the event index. -/
def notifMostRecent (res : RMIResult) (dates : List ℤ) (nf : Notif) : Prop :=
  (nf.signal = "buy" ∧ ∃ p ∈ res.buyPoints, nf.price = p.price ∧
    nf.timestamp = dates.getD p.x 0 ∧
    (∀ q ∈ res.buyPoints, q.x ≤ p.x) ∧ (∀ q ∈ res.sellPoints, q.x < p.x)) ∨
  (nf.signal = "sell" ∧ ∃ p ∈ res.sellPoints, nf.price = p.price ∧
    nf.timestamp = dates.getD p.x 0 ∧
    (∀ q ∈ res.sellPoints, q.x ≤ p.x) ∧ (∀ q ∈ res.buyPoints, q.x < p.x))

lemma pairNotifs_mostRecent (prices : List ℚ) (rmi : List (Option ℚ))
    (sym ind : String) (dates : List ℤ) (lut : Option ℤ) :
    ∀ nf ∈ pairNotifs sym ind dates lut (calculateRMIProfit prices rmi),
      notifMostRecent (calculateRMIProfit prices rmi) dates nf := by
  have hinv := stateInv_final prices rmi
  intro nf hnf
  unfold pairNotifs at hnf
  by_cases h1 : (calculateRMIProfit prices rmi).latestBuyPrice ≠ none ∧
      (calculateRMIProfit prices rmi).buyPoints ≠ []
  · rw [if_pos h1] at hnf
    rcases Option.ne_none_iff_exists'.1 h1.1 with ⟨b, hb⟩
    rcases Option.ne_none_iff_exists'.1
      (mt List.getLast?_eq_none_iff.1 h1.2) with ⟨pt, hpt⟩
    rw [hb, hpt] at hnf
    simp only [List.mem_singleton] at hnf
    subst hnf
    left
    refine ⟨rfl, ?_⟩
    rcases hinv.openLast b hb with ⟨p₀, hp₀m, hp₀price, hp₀max, hp₀sell⟩
    have hptm : pt ∈ (calculateRMIProfit prices rmi).buyPoints :=
      List.mem_of_mem_getLast? hpt
    have hmax := getLast?_max_x hinv.buySorted hpt
    have hx : p₀.x = pt.x := le_antisymm (hmax p₀ hp₀m) (hp₀max pt hptm)
    exact ⟨p₀, hp₀m, hp₀price.symm, by rw [hx], hp₀max, hp₀sell⟩
  · rw [if_neg h1] at hnf
    by_cases h2 : (calculateRMIProfit prices rmi).latestSellPrice ≠ none ∧
        (calculateRMIProfit prices rmi).sellPoints ≠ []
    · rw [if_pos h2] at hnf
      rcases Option.ne_none_iff_exists'.1 h2.1 with ⟨v, hv⟩
      rcases Option.ne_none_iff_exists'.1
        (mt List.getLast?_eq_none_iff.1 h2.2) with ⟨pt, hpt⟩
      rw [hv, hpt] at hnf
      simp only [List.mem_singleton] at hnf
      subst hnf
      right
      refine ⟨rfl, ?_⟩
      rcases hinv.soldLast v hv with ⟨p₀, hp₀m, hp₀price, hp₀max⟩
      have hptm : pt ∈ (calculateRMIProfit prices rmi).sellPoints :=
        List.mem_of_mem_getLast? hpt
      have hmax := getLast?_max_x hinv.sellSorted hpt
      have hx : p₀.x = pt.x := le_antisymm (hmax p₀ hp₀m) (hp₀max pt hptm)
      refine ⟨p₀, hp₀m, hp₀price.symm, by rw [hx], hp₀max, ?_⟩
      rcases not_and_or.1 h1 with hno | hno
      · have hnone : (calculateRMIProfit prices rmi).latestBuyPrice = none :=
          not_not.1 hno
        intro q hq
        rcases hinv.flatClosed hnone q hq with ⟨t, htm, hqt⟩
        exact lt_of_lt_of_le hqt (hp₀max t htm)
      · have hempty : (calculateRMIProfit prices rmi).buyPoints = [] :=
          not_not.1 hno
        intro q hq
        rw [hempty] at hq
        cases hq
    · rw [if_neg h2] at hnf
      cases hnf

lemma pairNotifs_stock (sym ind : String) (dates : List ℤ) (lut : Option ℤ)
    (res : RMIResult) :
    ∀ nf ∈ pairNotifs sym ind dates lut res, nf.stock = sym := by
  intro nf hnf
  unfold pairNotifs at hnf
  by_cases h1 : res.latestBuyPrice ≠ none ∧ res.buyPoints ≠ []
  · rw [if_pos h1] at hnf
    rcases Option.ne_none_iff_exists'.1 h1.1 with ⟨bp, hb⟩
    rcases Option.ne_none_iff_exists'.1
      (mt List.getLast?_eq_none_iff.1 h1.2) with ⟨pt, hpt⟩
    rw [hb, hpt] at hnf
    simp only [List.mem_singleton] at hnf
    subst hnf
    rfl
  · rw [if_neg h1] at hnf
    by_cases h2 : res.latestSellPrice ≠ none ∧ res.sellPoints ≠ []
    · rw [if_pos h2] at hnf
      rcases Option.ne_none_iff_exists'.1 h2.1 with ⟨sp, hv⟩
      rcases Option.ne_none_iff_exists'.1
        (mt List.getLast?_eq_none_iff.1 h2.2) with ⟨pt, hpt⟩
      rw [hv, hpt] at hnf
      simp only [List.mem_singleton] at hnf
      subst hnf
      rfl
    · rw [if_neg h2] at hnf
      cases hnf

lemma pairNotifs_length_le_one (sym ind : String) (dates : List ℤ)
    (lut : Option ℤ) (res : RMIResult) :
    (pairNotifs sym ind dates lut res).length ≤ 1 := by
  unfold pairNotifs
  by_cases h1 : res.latestBuyPrice ≠ none ∧ res.buyPoints ≠ []
  · rw [if_pos h1]
    rcases res.latestBuyPrice with _ | bp <;>
      rcases res.buyPoints.getLast? with _ | pt <;> simp
  · rw [if_neg h1]
    by_cases h2 : res.latestSellPrice ≠ none ∧ res.sellPoints ≠ []
    · rw [if_pos h2]
      rcases res.latestSellPrice with _ | sp <;>
        rcases res.sellPoints.getLast? with _ | pt <;> simp
    · rw [if_neg h2]
      simp

lemma insertByTsDesc_perm (n : Notif) :
    ∀ l : List Notif, (insertByTsDesc n l).Perm (n :: l) := by
  intro l
  induction l with
  | nil => exact List.Perm.refl _
  | cons m rest ih =>
    unfold insertByTsDesc
    by_cases h : m.timestamp < n.timestamp
    · rw [if_pos h]
    · rw [if_neg h]
      exact (ih.cons m).trans (List.Perm.swap n m rest)

lemma sortByTsDesc_perm : ∀ l : List Notif, (sortByTsDesc l).Perm l := by
  intro l
  induction l with
  | nil => exact List.Perm.refl _
  | cons n rest ih =>
    exact (insertByTsDesc_perm n (sortByTsDesc rest)).trans (ih.cons n)

/-- The claimed cache rule for the case where a prior fetch exists: a fetch
is issued iff the cache is stale, the period changed, or the enabled sets
differ as unordered sets. -/
def CacheDecisionUnordered (now : ℤ) (l : FetchMeta) (period : String)
    (enabled : List (String × Bool)) : Prop :=
  shouldFetchNewData now (some l) period enabled = true ↔
    (5 * 60 * 1000 < now - l.time ∨ period ≠ l.period ∨
      ¬ enabled.Perm l.enabledIndicators)

instance (now : ℤ) (l : FetchMeta) (period : String)
    (enabled : List (String × Bool)) :
    Decidable (CacheDecisionUnordered now l period enabled) := by
  unfold CacheDecisionUnordered; infer_instance

/-- Claim C4, as stated, is false of the code: the indicator maps
`{RMI: true, RSI: false}` and `{RSI: false, RMI: true}` are equal as
unordered sets, yet `JSON.stringify` serializes them differently, so a
fresh cache with an identical period still triggers a fetch. -/
theorem claim_C4_counterexample :
    ¬ CacheDecisionUnordered 1000 ⟨0, "1m", [("RMI", true), ("RSI", false)]⟩
      "1m" [("RSI", false), ("RMI", true)] := by
  decide

/-- Claim C4 (amended): with a cached fetch, a new fetch is issued iff the
cache is older than 5 minutes, the period changed, or the `JSON.stringify`
serialization of the enabled-indicator map changed (an insertion-order
sensitive comparison, not an unordered set comparison); with no cached
fetch a fetch is always issued; and after a successful fetch, a second
cycle with identical parameters inside the staleness window issues no fetch
and reuses the cached dataset. -/
theorem claim_C4_amended {α : Type} (d : α) (fr₂ : Except String α)
    (process : α → Option ℤ → List Notif) (now now₁ now₂ : ℤ) (l : FetchMeta)
    (p period : String) (e enabled : List (String × Bool)) (st : ScanState α)
    (hwin : now₂ - now₁ ≤ 5 * 60 * 1000)
    (hfetched :
      (checkForSignals (Except.ok d) process now₁ period enabled st).2 = true) :
    (shouldFetchNewData now (some l) p e = true ↔
      (5 * 60 * 1000 < now - l.time ∨ p ≠ l.period ∨
        jsonStringifyEnabled e ≠ jsonStringifyEnabled l.enabledIndicators)) ∧
    shouldFetchNewData now none p e = true ∧
    (checkForSignals fr₂ process now₂ period enabled
      (checkForSignals (Except.ok d) process now₁ period enabled st).1).2 =
      false ∧
    (checkForSignals fr₂ process now₂ period enabled
      (checkForSignals (Except.ok d) process now₁ period enabled st).1).1.cachedData
      = d := by
  refine ⟨?_, rfl, ?_⟩
  · unfold shouldFetchNewData
    simp [or_assoc]
  · cases hb : shouldFetchNewData now₁ st.lastFetch period enabled with
    | false =>
      exfalso
      unfold checkForSignals at hfetched
      rw [hb] at hfetched
      simp at hfetched
    | true =>
      have hc₁ : (checkForSignals (Except.ok d) process now₁ period enabled st).1 =
          ⟨d, some ⟨now₁, period, enabled⟩,
            sortByTsDesc (process d st.lastUpdateTime), some now₁, none⟩ := by
        unfold checkForSignals
        rw [hb]
        rfl
      have h2 : shouldFetchNewData now₂ (some ⟨now₁, period, enabled⟩) period
          enabled = false := by
        unfold shouldFetchNewData
        simp only [Bool.or_eq_false_iff, decide_eq_false_iff_not, not_lt,
          ne_eq, not_not]
        refine ⟨⟨by omega, ?_⟩, ?_⟩ <;> trivial
      rw [hc₁]
      constructor
      · unfold checkForSignals
        rw [h2]
        rfl
      · unfold checkForSignals
        rw [h2]
        rfl

/-- Witness for the amended claim C4 at concrete inputs: a first cycle
fetches, a second cycle one millisecond later with unchanged parameters is
answered from the cache. -/
theorem claim_C4_amended_witness :
    ((1 : ℤ) - 0 ≤ 5 * 60 * 1000 ∧
      (checkForSignals (Except.ok (0 : ℕ)) (fun _ _ => []) 0 "1m"
        [("RMI", true)] ⟨0, none, [], none, none⟩).2 = true) ∧
    ((shouldFetchNewData 400000 (some ⟨0, "1m", [("RMI", true)]⟩) "1m"
        [("RMI", true)] = true ↔
      (5 * 60 * 1000 < (400000 : ℤ) - 0 ∨ ("1m" : String) ≠ "1m" ∨
        jsonStringifyEnabled [("RMI", true)] ≠
          jsonStringifyEnabled [("RMI", true)])) ∧
    shouldFetchNewData 400000 none "1m" [("RMI", true)] = true ∧
    (checkForSignals (Except.ok (5 : ℕ)) (fun _ _ => []) 1 "1m" [("RMI", true)]
      (checkForSignals (Except.ok (0 : ℕ)) (fun _ _ => []) 0 "1m"
        [("RMI", true)] ⟨0, none, [], none, none⟩).1).2 = false ∧
    (checkForSignals (Except.ok (5 : ℕ)) (fun _ _ => []) 1 "1m" [("RMI", true)]
      (checkForSignals (Except.ok (0 : ℕ)) (fun _ _ => []) 0 "1m"
        [("RMI", true)] ⟨0, none, [], none, none⟩).1).1.cachedData = 0) :=
  ⟨⟨by decide, by decide⟩,
    claim_C4_amended 0 (Except.ok 5) (fun _ _ => []) 400000 0 1
      ⟨0, "1m", [("RMI", true)]⟩ "1m" "1m" [("RMI", true)] [("RMI", true)]
      ⟨0, none, [], none, none⟩ (by decide) (by decide)⟩

/-- Claim C8: when a cycle issues a fetch and the fetch fails, the cycle
aborts with a transient error message while the cached dataset, the cached
fetch metadata, the published notification list and the last update time
all stay exactly as the previous successful scan left them. -/
theorem claim_C8_fetch_failure {α : Type} (msg : String)
    (process : α → Option ℤ → List Notif) (now : ℤ) (period : String)
    (enabled : List (String × Bool)) (st : ScanState α)
    (h : shouldFetchNewData now st.lastFetch period enabled = true) :
    (checkForSignals (Except.error msg) process now period enabled st).1.cachedData
      = st.cachedData ∧
    (checkForSignals (Except.error msg) process now period enabled st).1.lastFetch
      = st.lastFetch ∧
    (checkForSignals (Except.error msg) process now period enabled st).1.notifications
      = st.notifications ∧
    (checkForSignals (Except.error msg) process now period enabled st).1.lastUpdateTime
      = st.lastUpdateTime ∧
    (checkForSignals (Except.error msg) process now period enabled st).1.error
      = some ("Failed to fetch stock data: " ++ msg) := by
  unfold checkForSignals
  rw [h]
  exact ⟨rfl, rfl, rfl, rfl, rfl⟩

/-- Witness for claim C8 at a concrete failing cycle. -/
theorem claim_C8_witness :
    shouldFetchNewData 0 (none : Option FetchMeta) "1m" [("RMI", true)] = true ∧
    ((checkForSignals (Except.error "boom") (fun _ _ => []) 0 "1m"
        [("RMI", true)] (⟨7, none, [], none, none⟩ : ScanState ℕ)).1.cachedData = 7 ∧
    (checkForSignals (Except.error "boom") (fun _ _ => []) 0 "1m"
        [("RMI", true)] (⟨7, none, [], none, none⟩ : ScanState ℕ)).1.lastFetch = none ∧
    (checkForSignals (Except.error "boom") (fun _ _ => []) 0 "1m"
        [("RMI", true)] (⟨7, none, [], none, none⟩ : ScanState ℕ)).1.notifications = [] ∧
    (checkForSignals (Except.error "boom") (fun _ _ => []) 0 "1m"
        [("RMI", true)] (⟨7, none, [], none, none⟩ : ScanState ℕ)).1.lastUpdateTime = none ∧
    (checkForSignals (Except.error "boom") (fun _ _ => []) 0 "1m"
        [("RMI", true)] (⟨7, none, [], none, none⟩ : ScanState ℕ)).1.error
      = some ("Failed to fetch stock data: " ++ "boom")) :=
  ⟨by decide, claim_C8_fetch_failure "boom" (fun _ _ => []) 0 "1m"
    [("RMI", true)] ⟨7, none, [], none, none⟩ (by decide)⟩

/-- Modelled from the spec: `calculateRSIProfit` is imported from
`RSIChart.tsx`, which is not under `src/`.  Spec §9 records the
per-indicator profit functions as near-duplicate implementations of one
another and §4.2 gives RSI the identical 30/70 crossing rule as RMI, so the
RSI calculator is modelled as the same pass as `calculateRMIProfit`. -/
def calculateRSIProfit (prices : List ℚ) (rsi : List (Option ℚ)) : RMIResult :=
  calculateRMIProfit prices rsi

/-- All four MACD samples consulted at index `i` are defined (spec §4.2:
indices where an indicator value is undefined are skipped entirely). -/
def macdDefined (macdLine signalLine : List (Option ℚ)) (i : ℕ) : Prop :=
  macdLine.getD (i - 1) none ≠ none ∧ macdLine.getD i none ≠ none ∧
    signalLine.getD (i - 1) none ≠ none ∧ signalLine.getD i none ≠ none

/-- Spec §4.2 MACD buy trigger: `macdLine` crosses above `signalLine`
between two consecutive defined samples. -/
def macdBuySignal (macdLine signalLine : List (Option ℚ)) (i : ℕ) : Prop :=
  macdDefined macdLine signalLine i ∧
    jnum (macdLine.getD (i - 1) none) ≤ jnum (signalLine.getD (i - 1) none) ∧
    jnum (signalLine.getD i none) < jnum (macdLine.getD i none)

/-- Spec §4.2 MACD sell trigger: `macdLine` crosses below `signalLine`
between two consecutive defined samples. -/
def macdSellSignal (macdLine signalLine : List (Option ℚ)) (i : ℕ) : Prop :=
  macdDefined macdLine signalLine i ∧
    jnum (signalLine.getD (i - 1) none) ≤ jnum (macdLine.getD (i - 1) none) ∧
    jnum (macdLine.getD i none) < jnum (signalLine.getD i none)

instance (macdLine signalLine : List (Option ℚ)) (i : ℕ) :
    Decidable (macdBuySignal macdLine signalLine i) := by
  unfold macdBuySignal macdDefined; infer_instance

instance (macdLine signalLine : List (Option ℚ)) (i : ℕ) :
    Decidable (macdSellSignal macdLine signalLine i) := by
  unfold macdSellSignal macdDefined; infer_instance

/-- Modelled from the spec: one step of the MACD profit pass.  Spec §4.2's
single-open-position state machine (buy only while FLAT — no pyramiding,
sell only while LONG) with §4.3's ProfitSimulator bookkeeping, including
its `latestOpenSellPrice` contract: a buy clears the recorded sell, so the
sell price is kept only while the most recent event is a sell. -/
def macdStep (prices : List ℚ) (macdLine signalLine : List (Option ℚ))
    (s : RMIState) (i : ℕ) : RMIState :=
  if macdBuySignal macdLine signalLine i ∧ s.latestBuy = none then
    { s with latestBuy := some (prices.getD i 0),
             latestSell := none,
             buyPoints :=
               s.buyPoints ++ [⟨i, macdLine.getD i none, prices.getD i 0⟩] }
  else if macdSellSignal macdLine signalLine i ∧ s.latestBuy ≠ none then
    let b := s.latestBuy.getD 0
    { s with capital := s.capital * (1 + (prices.getD i 0 - b) / b),
             sellPoints :=
               s.sellPoints ++ [⟨i, macdLine.getD i none, prices.getD i 0⟩],
             latestBuy := none,
             latestSell := some (prices.getD i 0) }
  else s

/-- The MACD pass over an explicit index list. -/
def macdLoop (prices : List ℚ) (macdLine signalLine : List (Option ℚ)) :
    RMIState → List ℕ → RMIState
  | s, [] => s
  | s, i :: rest =>
    macdLoop prices macdLine signalLine
      (macdStep prices macdLine signalLine s i) rest

/-- The MACD pass state after all indices `1 .. macdLine.length - 1`. -/
def macdFinalState (prices : List ℚ)
    (macdLine signalLine : List (Option ℚ)) : RMIState :=
  macdLoop prices macdLine signalLine initRMIState
    (List.range' 1 (macdLine.length - 1))

/-- Modelled from the spec: `calculateMACDProfit` is imported from
`MACD-Chart.tsx`, which is not under `src/`.  It runs the §4.2 MACD
crossing state machine over the two lines and applies the §4.3
ProfitSimulator: capital starts at 100, each completed round trip
compounds it, an open position is synthetically closed at the last price
for reporting only, and the latest open buy/sell prices are returned in
the same record shape the notification board destructures. -/
def calculateMACDProfit (prices : List ℚ)
    (macdLine signalLine : List (Option ℚ)) : RMIResult :=
  let s := macdFinalState prices macdLine signalLine
  let capital :=
    match s.latestBuy with
    | some b => s.capital * (1 + (prices.getD (prices.length - 1) 0 - b) / b)
    | none => s.capital
  ⟨capital - 100, s.buyPoints, s.sellPoints, s.latestBuy, s.latestSell⟩

/-- Invariant of the MACD pass state: event indices bounded and sorted, an
open position records the price of the most recent buy (which follows
every sell), and a recorded sell price belongs to the most recent event
overall (a buy would have cleared it). -/
structure MacdInv (i : ℕ) (s : RMIState) : Prop where
  buyBound : ∀ p ∈ s.buyPoints, p.x < i
  sellBound : ∀ p ∈ s.sellPoints, p.x < i
  buySorted : s.buyPoints.Pairwise (fun a b => a.x < b.x)
  sellSorted : s.sellPoints.Pairwise (fun a b => a.x < b.x)
  openLast : ∀ b, s.latestBuy = some b →
    ∃ p ∈ s.buyPoints, p.price = b ∧ (∀ q ∈ s.buyPoints, q.x ≤ p.x) ∧
      (∀ q ∈ s.sellPoints, q.x < p.x)
  soldLast : ∀ v, s.latestSell = some v →
    ∃ p ∈ s.sellPoints, p.price = v ∧ (∀ q ∈ s.sellPoints, q.x ≤ p.x) ∧
      (∀ q ∈ s.buyPoints, q.x < p.x)

lemma macdInv_weaken {i i' : ℕ} {s : RMIState} (h : MacdInv i s)
    (hii : i ≤ i') : MacdInv i' s :=
  { h with
    buyBound := fun p hp => lt_of_lt_of_le (h.buyBound p hp) hii
    sellBound := fun p hp => lt_of_lt_of_le (h.sellBound p hp) hii }

lemma macdInv_init : MacdInv 1 initRMIState := by
  refine ⟨?_, ?_, ?_, ?_, ?_, ?_⟩ <;> simp [initRMIState]

lemma macdInv_step (prices : List ℚ) (macdLine signalLine : List (Option ℚ))
    {i j : ℕ} {s : RMIState} (h : MacdInv i s) (hij : i ≤ j) :
    MacdInv (j + 1) (macdStep prices macdLine signalLine s j) := by
  by_cases hb : macdBuySignal macdLine signalLine j ∧ s.latestBuy = none
  · refine ⟨?_, ?_, ?_, ?_, ?_, ?_⟩ <;>
      simp only [macdStep, if_pos hb]
    · intro p hp
      rcases List.mem_append.1 hp with hp | hp
      · exact lt_of_lt_of_le (h.buyBound p hp) (by omega)
      · simp at hp; subst hp; exact Nat.lt_succ_self j
    · exact fun p hp => lt_of_lt_of_le (h.sellBound p hp) (by omega)
    · refine List.pairwise_append.2 ⟨h.buySorted, List.pairwise_singleton _ _, ?_⟩
      intro a ha b hbm
      simp at hbm
      subst hbm
      exact lt_of_lt_of_le (h.buyBound a ha) hij
    · exact h.sellSorted
    · intro b hbq
      simp only [Option.some.injEq] at hbq
      refine ⟨⟨j, macdLine.getD j none, prices.getD j 0⟩,
        List.mem_append_right _ (List.mem_singleton.2 rfl), hbq ▸ rfl, ?_, ?_⟩
      · intro q hq
        rcases List.mem_append.1 hq with hq | hq
        · exact le_of_lt (lt_of_lt_of_le (h.buyBound q hq) hij)
        · simp at hq; subst hq; exact le_refl j
      · exact fun q hq => lt_of_lt_of_le (h.sellBound q hq) hij
    · intro v hv
      cases hv
  · by_cases hs : macdSellSignal macdLine signalLine j ∧ s.latestBuy ≠ none
    · refine ⟨?_, ?_, ?_, ?_, ?_, ?_⟩ <;>
        simp only [macdStep, if_neg hb, if_pos hs]
      · exact fun p hp => lt_of_lt_of_le (h.buyBound p hp) (by omega)
      · intro p hp
        rcases List.mem_append.1 hp with hp | hp
        · exact lt_of_lt_of_le (h.sellBound p hp) (by omega)
        · simp at hp; subst hp; exact Nat.lt_succ_self j
      · exact h.buySorted
      · refine List.pairwise_append.2 ⟨h.sellSorted, List.pairwise_singleton _ _, ?_⟩
        intro a ha b hbm
        simp at hbm
        subst hbm
        exact lt_of_lt_of_le (h.sellBound a ha) hij
      · intro b hbq
        simp at hbq
      · intro v hv
        simp only [Option.some.injEq] at hv
        refine ⟨⟨j, macdLine.getD j none, prices.getD j 0⟩,
          List.mem_append_right _ (List.mem_singleton.2 rfl), hv ▸ rfl, ?_, ?_⟩
        · intro q hq
          rcases List.mem_append.1 hq with hq | hq
          · exact le_of_lt (lt_of_lt_of_le (h.sellBound q hq) hij)
          · simp at hq; subst hq; exact le_refl j
        · exact fun q hq => lt_of_lt_of_le (h.buyBound q hq) hij
    · have hskip : macdStep prices macdLine signalLine s j = s := by
        simp [macdStep, if_neg hb, if_neg hs]
      rw [hskip]
      exact macdInv_weaken h (by omega)

lemma macdInv_loop (prices : List ℚ) (macdLine signalLine : List (Option ℚ)) :
    ∀ (m a i : ℕ) (s : RMIState), MacdInv i s → i ≤ a →
      MacdInv (a + m) (macdLoop prices macdLine signalLine s (List.range' a m)) := by
  intro m
  induction m with
  | zero =>
    intro a i s h hia
    simpa [macdLoop] using macdInv_weaken h (by omega)
  | succ m ih =>
    intro a i s h hia
    rw [List.range'_succ]
    have hstep := macdInv_step prices macdLine signalLine h hia
    have := ih (a + 1) (a + 1) (macdStep prices macdLine signalLine s a) hstep
      (le_refl _)
    rw [macdLoop]
    have harith : a + 1 + m = a + (m + 1) := by omega
    rw [harith] at this
    exact this

lemma macdInv_final (prices : List ℚ) (macdLine signalLine : List (Option ℚ)) :
    MacdInv (1 + (macdLine.length - 1))
      (macdFinalState prices macdLine signalLine) :=
  macdInv_loop prices macdLine signalLine (macdLine.length - 1) 1 1
    initRMIState macdInv_init (le_refl 1)

lemma pairNotifs_mostRecent_macd (prices : List ℚ)
    (macdLine signalLine : List (Option ℚ)) (sym ind : String)
    (dates : List ℤ) (lut : Option ℤ) :
    ∀ nf ∈ pairNotifs sym ind dates lut
        (calculateMACDProfit prices macdLine signalLine),
      notifMostRecent (calculateMACDProfit prices macdLine signalLine)
        dates nf := by
  have hinv := macdInv_final prices macdLine signalLine
  intro nf hnf
  unfold pairNotifs at hnf
  by_cases h1 : (calculateMACDProfit prices macdLine signalLine).latestBuyPrice ≠ none ∧
      (calculateMACDProfit prices macdLine signalLine).buyPoints ≠ []
  · rw [if_pos h1] at hnf
    rcases Option.ne_none_iff_exists'.1 h1.1 with ⟨b, hb⟩
    rcases Option.ne_none_iff_exists'.1
      (mt List.getLast?_eq_none_iff.1 h1.2) with ⟨pt, hpt⟩
    rw [hb, hpt] at hnf
    simp only [List.mem_singleton] at hnf
    subst hnf
    left
    refine ⟨rfl, ?_⟩
    rcases hinv.openLast b hb with ⟨p₀, hp₀m, hp₀price, hp₀max, hp₀sell⟩
    have hptm : pt ∈ (calculateMACDProfit prices macdLine signalLine).buyPoints :=
      List.mem_of_mem_getLast? hpt
    have hmax := getLast?_max_x hinv.buySorted hpt
    have hx : p₀.x = pt.x := le_antisymm (hmax p₀ hp₀m) (hp₀max pt hptm)
    exact ⟨p₀, hp₀m, hp₀price.symm, by rw [hx], hp₀max, hp₀sell⟩
  · rw [if_neg h1] at hnf
    by_cases h2 : (calculateMACDProfit prices macdLine signalLine).latestSellPrice ≠ none ∧
        (calculateMACDProfit prices macdLine signalLine).sellPoints ≠ []
    · rw [if_pos h2] at hnf
      rcases Option.ne_none_iff_exists'.1 h2.1 with ⟨v, hv⟩
      rcases Option.ne_none_iff_exists'.1
        (mt List.getLast?_eq_none_iff.1 h2.2) with ⟨pt, hpt⟩
      rw [hv, hpt] at hnf
      simp only [List.mem_singleton] at hnf
      subst hnf
      right
      refine ⟨rfl, ?_⟩
      rcases hinv.soldLast v hv with ⟨p₀, hp₀m, hp₀price, hp₀max, hp₀buy⟩
      have hptm : pt ∈ (calculateMACDProfit prices macdLine signalLine).sellPoints :=
        List.mem_of_mem_getLast? hpt
      have hmax := getLast?_max_x hinv.sellSorted hpt
      have hx : p₀.x = pt.x := le_antisymm (hmax p₀ hp₀m) (hp₀max pt hptm)
      exact ⟨p₀, hp₀m, hp₀price.symm, by rw [hx], hp₀max, hp₀buy⟩
    · rw [if_neg h2] at hnf
      cases hnf

/-- JavaScript property lookup `enabledIndicators[indicator.key]` on the
enabled-indicator map: the stored boolean, or falsy `undefined` when the
key is absent. -/
def lookupEnabled (enabled : List (String × Bool)) (key : String) : Bool :=
  match enabled.find? (fun kv => kv.1 = key) with
  | some kv => kv.2
  | none => false

/-- The keys of the `indicators` table of the notification board, in table
order: RMI, RSI, MACD. -/
def indicatorKeys : List String := ["RMI", "RSI", "MACD"]

/-- Per-symbol inputs the cycle derives from `response[symbol].history`:
the symbol name, its own parsed date axis, and its own closing prices
(symbols with missing or malformed history are skipped by `continue` and
simply absent from this list).  The indicator series are computed from the
closes by the indicator library, which the model takes as parameters. -/
structure SymbolData where
  symbol : String
  dates : List ℤ
  closes : List ℚ
deriving DecidableEq

/-- The `indicator.calculateProfit` dispatch of the inner loop: MACD gets
the two lines of `MACD(closingPrices)`, the oscillators get their single
series (`indicator.calculate(closingPrices)`).  The indicator library
functions `rmiF`, `rsiF`, `macdF` (from `utils/Indicators`, not under
`src/`) are parameters, so every result below holds for any library. -/
def indicatorResult (rmiF rsiF : List ℚ → List (Option ℚ))
    (macdF : List ℚ → List (Option ℚ) × List (Option ℚ))
    (closes : List ℚ) (key : String) : RMIResult :=
  if key = "MACD" then
    calculateMACDProfit closes (macdF closes).1 (macdF closes).2
  else if key = "RSI" then calculateRSIProfit closes (rsiF closes)
  else calculateRMIProfit closes (rmiF closes)

/-- The inner `for (const indicator of indicators)` loop for one symbol:
each enabled indicator contributes its per-pair notification block. -/
def symbolIndicatorNotifs (rmiF rsiF : List ℚ → List (Option ℚ))
    (macdF : List ℚ → List (Option ℚ) × List (Option ℚ))
    (enabled : List (String × Bool)) (lut : Option ℤ) (d : SymbolData) :
    List Notif :=
  indicatorKeys.flatMap fun key =>
    if lookupEnabled enabled key then
      pairNotifs d.symbol key d.dates lut
        (indicatorResult rmiF rsiF macdF d.closes key)
    else []

/-- One scan cycle's aggregate notification list: the outer
`for (const symbol of symbols)` loop over the per-symbol datasets. -/
def scanNotifs (rmiF rsiF : List ℚ → List (Option ℚ))
    (macdF : List ℚ → List (Option ℚ) × List (Option ℚ))
    (enabled : List (String × Bool)) (lut : Option ℤ)
    (data : List SymbolData) : List Notif :=
  data.flatMap fun d => symbolIndicatorNotifs rmiF rsiF macdF enabled lut d

lemma pairNotifs_indicator (sym ind : String) (dates : List ℤ)
    (lut : Option ℤ) (res : RMIResult) :
    ∀ nf ∈ pairNotifs sym ind dates lut res, nf.indicator = ind := by
  intro nf hnf
  unfold pairNotifs at hnf
  by_cases h1 : res.latestBuyPrice ≠ none ∧ res.buyPoints ≠ []
  · rw [if_pos h1] at hnf
    rcases Option.ne_none_iff_exists'.1 h1.1 with ⟨bp, hb⟩
    rcases Option.ne_none_iff_exists'.1
      (mt List.getLast?_eq_none_iff.1 h1.2) with ⟨pt, hpt⟩
    rw [hb, hpt] at hnf
    simp only [List.mem_singleton] at hnf
    subst hnf
    rfl
  · rw [if_neg h1] at hnf
    by_cases h2 : res.latestSellPrice ≠ none ∧ res.sellPoints ≠ []
    · rw [if_pos h2] at hnf
      rcases Option.ne_none_iff_exists'.1 h2.1 with ⟨sp, hv⟩
      rcases Option.ne_none_iff_exists'.1
        (mt List.getLast?_eq_none_iff.1 h2.2) with ⟨pt, hpt⟩
      rw [hv, hpt] at hnf
      simp only [List.mem_singleton] at hnf
      subst hnf
      rfl
    · rw [if_neg h2] at hnf
      cases hnf

lemma filter_flatMap_nil {α β : Type} (l : List α) (f : α → List β)
    (pred : β → Bool) (h : ∀ a ∈ l, (f a).filter pred = []) :
    (l.flatMap f).filter pred = [] := by
  induction l with
  | nil => rfl
  | cons a rest ih =>
    rw [List.flatMap_cons, List.filter_append, h a (List.mem_cons_self a rest),
      List.nil_append]
    exact ih fun b hb => h b (List.mem_cons_of_mem a hb)

lemma length_filter_flatMap_le_one {α β : Type} (l : List α)
    (f : α → List β) (pred : β → Bool)
    (hone : ∀ a ∈ l, ((f a).filter pred).length ≤ 1)
    (hpair : l.Pairwise
      (fun a b => (f a).filter pred = [] ∨ (f b).filter pred = [])) :
    ((l.flatMap f).filter pred).length ≤ 1 := by
  induction l with
  | nil => simp
  | cons a rest ih =>
    rw [List.flatMap_cons, List.filter_append, List.length_append]
    rcases List.pairwise_cons.1 hpair with ⟨hhead, htail⟩
    by_cases hfa : (f a).filter pred = []
    · rw [hfa]
      simp only [List.length_nil, Nat.zero_add]
      exact ih (fun b hb => hone b (List.mem_cons_of_mem a hb)) htail
    · have hrest : ((rest.flatMap f).filter pred) = [] := by
        refine filter_flatMap_nil rest f pred ?_
        intro b hb
        rcases hhead b hb with h | h
        · exact absurd h hfa
        · exact h
      rw [hrest]
      simp only [List.length_nil, Nat.add_zero]
      exact hone a (List.mem_cons_self a rest)

lemma symbolIndicatorNotifs_stock (rmiF rsiF : List ℚ → List (Option ℚ))
    (macdF : List ℚ → List (Option ℚ) × List (Option ℚ))
    (enabled : List (String × Bool)) (lut : Option ℤ) (d : SymbolData) :
    ∀ nf ∈ symbolIndicatorNotifs rmiF rsiF macdF enabled lut d,
      nf.stock = d.symbol := by
  intro nf hnf
  unfold symbolIndicatorNotifs at hnf
  rcases List.mem_flatMap.1 hnf with ⟨key, _, hmem⟩
  by_cases he : lookupEnabled enabled key
  · rw [if_pos he] at hmem
    exact pairNotifs_stock d.symbol key d.dates lut _ nf hmem
  · rw [if_neg he] at hmem
    cases hmem

lemma symbolIndicatorNotifs_filter_le_one
    (rmiF rsiF : List ℚ → List (Option ℚ))
    (macdF : List ℚ → List (Option ℚ) × List (Option ℚ))
    (enabled : List (String × Bool)) (lut : Option ℤ) (d : SymbolData)
    (s ind : String) :
    ((symbolIndicatorNotifs rmiF rsiF macdF enabled lut d).filter
      (fun n => n.stock = s ∧ n.indicator = ind)).length ≤ 1 := by
  unfold symbolIndicatorNotifs
  refine length_filter_flatMap_le_one indicatorKeys _ _ ?_ ?_
  · intro key _
    by_cases he : lookupEnabled enabled key
    · rw [if_pos he]
      exact le_trans (List.length_filter_le _ _)
        (pairNotifs_length_le_one d.symbol key d.dates lut _)
    · rw [if_neg he]
      simp
  · have hkey : ∀ (k : String), k ≠ ind →
        ((if lookupEnabled enabled k then
          pairNotifs d.symbol k d.dates lut
            (indicatorResult rmiF rsiF macdF d.closes k)
        else []).filter (fun n => n.stock = s ∧ n.indicator = ind)) = [] := by
      intro k hk
      by_cases he : lookupEnabled enabled k
      · rw [if_pos he, List.filter_eq_nil_iff]
        intro nf hnf
        have := pairNotifs_indicator d.symbol k d.dates lut _ nf hnf
        simp only [decide_eq_true_eq, not_and]
        intro _
        rw [this]
        exact hk
      · rw [if_neg he]
        rfl
    have hnd : indicatorKeys.Pairwise (fun a b => a ≠ b) := by
      unfold indicatorKeys
      decide
    refine hnd.imp ?_
    intro a b hab
    by_cases ha : a = ind
    · right
      exact hkey b (fun hb => hab (ha.trans hb.symm))
    · left
      exact hkey a ha

lemma scanNotifs_filter_le_one (rmiF rsiF : List ℚ → List (Option ℚ))
    (macdF : List ℚ → List (Option ℚ) × List (Option ℚ))
    (enabled : List (String × Bool)) (lut : Option ℤ)
    (data : List SymbolData) (s ind : String)
    (hnd : (data.map (fun d => d.symbol)).Nodup) :
    ((scanNotifs rmiF rsiF macdF enabled lut data).filter
      (fun n => n.stock = s ∧ n.indicator = ind)).length ≤ 1 := by
  unfold scanNotifs
  refine length_filter_flatMap_le_one data _ _ ?_ ?_
  · intro d _
    exact symbolIndicatorNotifs_filter_le_one rmiF rsiF macdF enabled lut d s ind
  · have hpw : data.Pairwise (fun a b => a.symbol ≠ b.symbol) :=
      (List.pairwise_map.1 hnd)
    refine hpw.imp ?_
    intro a b hab
    have hsym : ∀ (c : SymbolData), c.symbol ≠ s →
        ((symbolIndicatorNotifs rmiF rsiF macdF enabled lut c).filter
          (fun n => n.stock = s ∧ n.indicator = ind)) = [] := by
      intro c hc
      rw [List.filter_eq_nil_iff]
      intro nf hnf
      have := symbolIndicatorNotifs_stock rmiF rsiF macdF enabled lut c nf hnf
      simp only [decide_eq_true_eq, not_and]
      intro hst
      rw [hst] at this
      exact absurd this.symm hc
    by_cases ha : a.symbol = s
    · right
      exact hsym b (fun hb => hab (ha.trans hb.symm))
    · left
      exact hsym a ha

lemma indicatorResult_mostRecent (rmiF rsiF : List ℚ → List (Option ℚ))
    (macdF : List ℚ → List (Option ℚ) × List (Option ℚ))
    (closes : List ℚ) (sym : String) (dates : List ℤ) (lut : Option ℤ)
    (key : String) :
    ∀ nf ∈ pairNotifs sym key dates lut
        (indicatorResult rmiF rsiF macdF closes key),
      notifMostRecent (indicatorResult rmiF rsiF macdF closes key)
        dates nf := by
  unfold indicatorResult
  by_cases hm : key = "MACD"
  · rw [if_pos hm]
    exact pairNotifs_mostRecent_macd closes (macdF closes).1 (macdF closes).2
      sym key dates lut
  · rw [if_neg hm]
    by_cases hr : key = "RSI"
    · rw [if_pos hr]
      unfold calculateRSIProfit
      exact pairNotifs_mostRecent closes (rsiF closes) sym key dates lut
    · rw [if_neg hr]
      exact pairNotifs_mostRecent closes (rmiF closes) sym key dates lut

/-- Claim C9: in one scan cycle — over symbols with distinct names, the
fixed RMI/RSI/MACD indicator table with its enabled-map lookup and MACD
dispatch, each symbol using its own date axis, and any indicator library —
the published feed contains at most one notification per
(symbol, indicator) pair, and every notification a pair can contribute
reports the single most recent signal event of that pair: the open buy
when a position is open, otherwise the latest completed sell. -/
theorem claim_C9_one_notification_per_pair
    (rmiF rsiF : List ℚ → List (Option ℚ))
    (macdF : List ℚ → List (Option ℚ) × List (Option ℚ))
    (enabled : List (String × Bool)) (lut : Option ℤ)
    (data : List SymbolData) (s ind : String)
    (hnd : (data.map (fun d => d.symbol)).Nodup) :
    ((sortByTsDesc (scanNotifs rmiF rsiF macdF enabled lut data)).filter
      (fun n => n.stock = s ∧ n.indicator = ind)).length ≤ 1 ∧
    (∀ d ∈ data, ∀ key ∈ indicatorKeys,
      ∀ nf ∈ pairNotifs d.symbol key d.dates lut
          (indicatorResult rmiF rsiF macdF d.closes key),
        notifMostRecent (indicatorResult rmiF rsiF macdF d.closes key)
          d.dates nf) := by
  constructor
  · have hperm :=
      (sortByTsDesc_perm (scanNotifs rmiF rsiF macdF enabled lut data)).filter
        (fun n => decide (n.stock = s ∧ n.indicator = ind))
    rw [hperm.length_eq]
    exact scanNotifs_filter_le_one rmiF rsiF macdF enabled lut data s ind hnd
  · intro d _ key _
    exact indicatorResult_mostRecent rmiF rsiF macdF d.closes d.symbol
      d.dates lut key

/-- Witness for claim C9 on a concrete two-symbol cycle with RMI enabled,
RSI and MACD disabled, and concrete indicator outputs. -/
theorem claim_C9_witness :
    (([⟨"A", [100, 200], [4, 6]⟩,
       ⟨"B", [300, 400], [1, 2]⟩] : List SymbolData).map
        (fun d => d.symbol)).Nodup ∧
    (((sortByTsDesc (scanNotifs (fun _ => [some 20, some 40])
        (fun _ => [some 80, some 60])
        (fun _ => ([some 1, some 2], [some 2, some 1]))
        [("RMI", true), ("RSI", false), ("MACD", false)] none
        [⟨"A", [100, 200], [4, 6]⟩, ⟨"B", [300, 400], [1, 2]⟩])).filter
      (fun n => n.stock = "A" ∧ n.indicator = "RMI")).length ≤ 1 ∧
    (∀ d ∈ ([⟨"A", [100, 200], [4, 6]⟩,
             ⟨"B", [300, 400], [1, 2]⟩] : List SymbolData),
      ∀ key ∈ indicatorKeys,
      ∀ nf ∈ pairNotifs d.symbol key d.dates none
          (indicatorResult (fun _ => [some 20, some 40])
            (fun _ => [some 80, some 60])
            (fun _ => ([some 1, some 2], [some 2, some 1])) d.closes key),
        notifMostRecent
          (indicatorResult (fun _ => [some 20, some 40])
            (fun _ => [some 80, some 60])
            (fun _ => ([some 1, some 2], [some 2, some 1])) d.closes key)
          d.dates nf)) :=
  ⟨by decide,
    claim_C9_one_notification_per_pair (fun _ => [some 20, some 40])
      (fun _ => [some 80, some 60])
      (fun _ => ([some 1, some 2], [some 2, some 1]))
      [("RMI", true), ("RSI", false), ("MACD", false)] none
      [⟨"A", [100, 200], [4, 6]⟩, ⟨"B", [300, 400], [1, 2]⟩]
      "A" "RMI" (by decide)⟩

end FinanceBro
